import Mathlib

/-!
Verification development for a rapidjson-based JSON wrapper
(json_value.h / parse.h): the node model, the strict (`get`) and
permissive (`as`) typed accessor families, the array/object views,
the numeric text parsers and `to_string`.

Modelling conventions:
* machine integers are `Int` with explicit two's-complement wrapping
  (`wrapS` / `wrapU`) wherever the code truncates;
* C `double` values are idealised as exact rationals; the conversions
  shared between the accessor families are modelled by one function,
  so no binary-rounding facts are asserted;
* C byte strings are `List Char`, lengths are byte counts; conversion
  of a `const char*` to `std::string` keeps the bytes before the first
  NUL (`cstr`);
* the external rapidjson writer and `std::to_string(double)` are
  parameters of the functions that delegate to them.
-/

set_option maxHeartbeats 1000000
set_option maxRecDepth 2000

namespace Json

/-- Byte strings (`std::string` / rapidjson string payloads) as lists of
byte-characters; lengths are byte counts. -/
abbrev Str := List Char

/-- Two's-complement wrap of `v` into the unsigned `w`-bit range,
modelling `static_cast` to an unsigned `w`-bit integer. -/
def wrapU (w : Nat) (v : Int) : Int := v % ((2:Int)^w)

/-- Two's-complement wrap of `v` into the signed `w`-bit range,
modelling `static_cast` to a signed `w`-bit integer. -/
def wrapS (w : Nat) (v : Int) : Int :=
  (v + (2:Int)^(w-1)) % ((2:Int)^w) - (2:Int)^(w-1)

def int32min : Int := -2147483648
def int32max : Int := 2147483647
def uint32max : Int := 4294967295
def int64min : Int := -9223372036854775808
def int64max : Int := 9223372036854775807
def uint64max : Int := 18446744073709551615

/-- `std::numeric_limits<T>::min()` for a signed `w`-bit integer type. -/
def sMin (w : Nat) : Int := -((2:Int)^(w-1))

/-- `std::numeric_limits<T>::max()` for a signed `w`-bit integer type. -/
def sMax (w : Nat) : Int := (2:Int)^(w-1) - 1

/-- `std::numeric_limits<T>::max()` for an unsigned `w`-bit integer type. -/
def uMax (w : Nat) : Int := (2:Int)^w - 1

/-- Whitespace recognised by `isspace` in the "C" locale. Every locale
classifies these six characters as space; `LC_CTYPE` may add more — an
additional locale dependence of the C parsers kept outside this
model. -/
def isSpaceC (c : Char) : Bool :=
  c = ' ' || c = '\t' || c = '\n' || c = '\x0b' || c = '\x0c' || c = '\r'

/-- Value of a decimal digit string, most significant digit first. -/
def digitsVal (ds : Str) : Nat := ds.foldl (fun a c => a * 10 + (c.toNat - 48)) 0

/-- Outcome of a C `strtol`/`strtoul` call: the (possibly clamped)
value, the number of characters between the input pointer and the end
pointer, and whether `errno` was set to `ERANGE`. -/
structure CParseResult where
  value : Int
  consumed : Nat
  erange : Bool

/-- Model of C `strtol(s, &end, 10)` in the "C" locale: optional
whitespace, optional sign, decimal digits; when there are no digits
nothing is consumed; on overflow the value is clamped to `long` range
and `ERANGE` is raised. -/
def strtolModel (s : Str) : CParseResult :=
  let ws := s.takeWhile isSpaceC
  let r1 := s.drop ws.length
  let signLen : Nat := match r1 with
    | c :: _ => if c = '-' || c = '+' then 1 else 0
    | [] => 0
  let neg : Bool := match r1 with
    | c :: _ => c = '-'
    | [] => false
  let ds := (r1.drop signLen).takeWhile Char.isDigit
  if ds.isEmpty then ⟨0, 0, false⟩
  else
    let v : Int := if neg then -(digitsVal ds : Int) else (digitsVal ds : Int)
    let consumed := ws.length + signLen + ds.length
    if v < int64min then ⟨int64min, consumed, true⟩
    else if v > int64max then ⟨int64max, consumed, true⟩
    else ⟨v, consumed, false⟩

/-- Model of C `strtoul(s, &end, 10)` in the "C" locale: like
`strtolModel`, but a leading minus sign negates modulo `2^64` and
`ERANGE` is raised when the digit magnitude exceeds `unsigned long`
range. -/
def strtoulModel (s : Str) : CParseResult :=
  let ws := s.takeWhile isSpaceC
  let r1 := s.drop ws.length
  let signLen : Nat := match r1 with
    | c :: _ => if c = '-' || c = '+' then 1 else 0
    | [] => 0
  let neg : Bool := match r1 with
    | c :: _ => c = '-'
    | [] => false
  let ds := (r1.drop signLen).takeWhile Char.isDigit
  if ds.isEmpty then ⟨0, 0, false⟩
  else
    let consumed := ws.length + signLen + ds.length
    if (digitsVal ds : Int) > uint64max then ⟨uint64max, consumed, true⟩
    else
      let v : Int := if neg then wrapU 64 (-(digitsVal ds : Int)) else (digitsVal ds : Int)
      ⟨v, consumed, false⟩

/-- Outcome of a C `strtod` call. -/
structure CParseResultF where
  value : ℚ
  consumed : Nat
  erange : Bool

/-- Largest finite `double`, `(2^53 - 1) * 2^971`, as an exact rational. -/
def dblMax : ℚ := (2:ℚ)^1024 - (2:ℚ)^971

/-- The largest finite `double` as an integer, `2^1024 - 2^971`
(equivalently `(2^53 - 1) * 2^971`), written as a numeral so that
kernel evaluation of `decOverflow` need not unfold a 1024-deep power
chain; `dmaxZ_eq` certifies the value. -/
def dmaxZ : Int := 179769313486231570814527423731704356798070567525844996598917476803157260780028538760589558632766878171540458953514382464234321326889464182768467546703537516986049910576551282076245490090389328944075868508455133942304583236903222948165808559332123348274797826204144723168738177180919299881250404026184124858368

/-- Decides, in exact integer arithmetic, whether the decimal
magnitude `(ip + fp / 10^flen) * 10^e` exceeds `dblMax`: both sides of
the comparison are scaled by the positive factors `10^flen` and, for a
negative exponent, `10^(-e)`; `decOverflow_iff` below certifies the
equivalence with the rational threshold. -/
def decOverflow (ip fp flen : Nat) (e : Int) : Bool :=
  let num : Int := (ip : Int) * 10^flen + (fp : Int)
  if 0 ≤ e then decide (dmaxZ * 10^flen < num * 10^(e.toNat))
  else decide (dmaxZ * 10^flen * 10^((-e).toNat) < num)

/-- Model of C `strtod(s, &end)`, parameterized by the decimal-point
character the locale's `LC_NUMERIC` category supplies ('.' in the "C"
locale), on the decimal subject forms: optional whitespace, optional
sign, digits with an optional `radix`-separated fractional part,
optional decimal exponent. Values are kept as exact rationals (no
binary rounding); `ERANGE` is raised exactly when the magnitude
exceeds the finite `double` range, and the value is then the signed
`HUGE_VAL` analogue `±dblMax`. The whitespace class is the C-locale
`isspace` set. Hexadecimal floats and the `inf`/`nan` word forms are
outside this model, and on underflow `errno` is left unset — the C
standard leaves that choice implementation-defined (glibc sets
`ERANGE`). -/
def strtodModelLoc (radix : Char) (s : Str) : CParseResultF :=
  let ws := s.takeWhile isSpaceC
  let r1 := s.drop ws.length
  let signLen : Nat := match r1 with
    | c :: _ => if c = '-' || c = '+' then 1 else 0
    | [] => 0
  let neg : Bool := match r1 with
    | c :: _ => c = '-'
    | [] => false
  let r2 := r1.drop signLen
  let ipart := r2.takeWhile Char.isDigit
  let r3 := r2.drop ipart.length
  let fpart : Str := match r3 with
    | c :: rest => if c = radix then rest.takeWhile Char.isDigit else []
    | [] => []
  let fracLen : Nat := match r3 with
    | c :: _ => if c = radix then 1 + fpart.length else 0
    | [] => 0
  if ipart.isEmpty && fpart.isEmpty then ⟨0, 0, false⟩
  else
    let r4 := r3.drop fracLen
    let expPart : Int × Nat := match r4 with
      | c :: rest =>
        if c = 'e' || c = 'E' then
          let esignLen : Nat := match rest with
            | d :: _ => if d = '-' || d = '+' then 1 else 0
            | [] => 0
          let eneg : Bool := match rest with
            | d :: _ => d = '-'
            | [] => false
          let eds := (rest.drop esignLen).takeWhile Char.isDigit
          if eds.isEmpty then (0, 0)
          else (if eneg then -(digitsVal eds : Int) else (digitsVal eds : Int),
                1 + esignLen + eds.length)
        else (0, 0)
      | [] => (0, 0)
    let mag : ℚ := (digitsVal ipart : ℚ) + (digitsVal fpart : ℚ) / (10:ℚ)^fpart.length
    let v : ℚ := (if neg then -mag else mag) * (10:ℚ)^expPart.1
    let consumed := ws.length + signLen + ipart.length + fracLen + expPart.2
    let over := decOverflow (digitsVal ipart) (digitsVal fpart) fpart.length expPart.1
    ⟨if over then (if neg then -dblMax else dblMax) else v, consumed, over⟩

/-- The "C"-locale instantiation of the `strtod` model (radix `'.'`). -/
def strtodModel : Str → CParseResultF := strtodModelLoc '.'

/-- The bytes a `const char*` exposes from a byte buffer: everything up
to the first NUL. Converting `const char*` to `std::string` keeps
exactly these bytes. -/
def cstr (s : Str) : Str := s.takeWhile (fun c => c != '\x00')

/-- parse.h `detail::parse` for `bool`: accepts exactly `true`/`false`
up to ASCII case (`common::lower_string` modelled as ASCII
lowercasing). -/
def parseBool (s : Str) : Option Bool :=
  if s.isEmpty then none
  else
    let ls := s.map Char.toLower
    if ls = "true".data then some true
    else if ls = "false".data then some false
    else none

/-- parse.h `detail::parse` for a signed integer type with range
`[minT, maxT]` (parse.h 29-47): non-empty input, `strtol` must consume
at least one character and stop at the terminating NUL, the value must
be in range, and `errno` must not be `ERANGE`. -/
def parseSigned (minT maxT : Int) (s : Str) : Option Int :=
  if s.isEmpty then none
  else
    let cs := cstr s
    let r := strtolModel cs
    if r.consumed ≠ 0 ∧ r.consumed = cs.length ∧ r.value ≤ maxT ∧ minT ≤ r.value ∧
        r.erange = false
    then some r.value
    else none

/-- parse.h `detail::parse` for an unsigned integer type with maximum
`maxT` (parse.h 49-67): additionally rejects any input containing a
minus sign anywhere in the full byte string. -/
def parseUnsigned (maxT : Int) (s : Str) : Option Int :=
  if s.isEmpty || s.contains '-' then none
  else
    let cs := cstr s
    let r := strtoulModel cs
    if r.consumed ≠ 0 ∧ r.consumed = cs.length ∧ r.value ≤ maxT ∧ 0 ≤ r.value ∧
        r.erange = false
    then some r.value
    else none

/-- parse.h `detail::parse` for a floating-point type (parse.h 69-82),
parameterized by the decimal-point character the underlying `strtod`
takes from the locale. -/
def parseFloatingLoc (radix : Char) (s : Str) : Option ℚ :=
  if s.isEmpty then none
  else
    let cs := cstr s
    let r := strtodModelLoc radix cs
    if r.consumed ≠ 0 ∧ r.consumed = cs.length ∧ r.erange = false
    then some r.value
    else none

/-- parse.h `detail::parse` for a floating-point type as it behaves in
the "C" locale — what the permissive accessors observe there. -/
def parseFloating (s : Str) : Option ℚ := parseFloatingLoc '.' s

/-- parse.h two-argument `detail::parse(value, default_value)`
(parse.h 84-92), signed instantiation. -/
def parseSignedD (minT maxT : Int) (s : Str) (d : Int) : Int :=
  (parseSigned minT maxT s).getD d

/-- parse.h two-argument `detail::parse(value, default_value)`,
unsigned instantiation. -/
def parseUnsignedD (maxT : Int) (s : Str) (d : Int) : Int :=
  (parseUnsigned maxT s).getD d

/-- parse.h two-argument `detail::parse(value, default_value)`,
floating-point instantiation, locale-parameterized. -/
def parseFloatingLocD (radix : Char) (s : Str) (d : ℚ) : ℚ :=
  (parseFloatingLoc radix s).getD d

/-- One tree node (the rapidjson tagged value). An integer node stores
its mathematical value; the rapidjson `kInt`/`kUint`/`kInt64`/`kUint64`
flags are recovered from the value by the predicates below, matching
the normalisation all of rapidjson's numeric constructors perform. -/
inductive Node where
  | null
  | bool (b : Bool)
  | intNum (v : Int)
  | double (q : ℚ)
  | str (s : Str)
  | arr (elems : List Node)
  | obj (members : List (Str × Node))

/-- rapidjson `IsInt` on an integer payload. -/
def isIntFlag (v : Int) : Bool := decide (int32min ≤ v ∧ v ≤ int32max)

/-- rapidjson `IsUint` on an integer payload. -/
def isUintFlag (v : Int) : Bool := decide (0 ≤ v ∧ v ≤ uint32max)

/-- rapidjson `IsInt64` on an integer payload. -/
def isInt64Flag (v : Int) : Bool := decide (int64min ≤ v ∧ v ≤ int64max)

/-- rapidjson `IsUint64` on an integer payload. -/
def isUint64Flag (v : Int) : Bool := decide (0 ≤ v ∧ v ≤ uint64max)

/-- rapidjson `GetInt` (reads the low 32 bits of the payload, signed). -/
def getIntRaw (v : Int) : Int := wrapS 32 v

/-- rapidjson `GetUint` (reads the low 32 bits, unsigned). -/
def getUintRaw (v : Int) : Int := wrapU 32 v

/-- rapidjson `GetInt64` (reads the 64-bit payload, signed). -/
def getInt64Raw (v : Int) : Int := wrapS 64 v

/-- rapidjson `GetUint64` (reads the 64-bit payload, unsigned). -/
def getUint64Raw (v : Int) : Int := wrapU 64 v

/-- rapidjson `GetDouble` on an integer payload: flag dispatch in
source order; the trailing case is rapidjson's asserted `uint64`
fallback. -/
def getDoubleOfInt (v : Int) : ℚ :=
  if isIntFlag v then ((getIntRaw v : Int) : ℚ)
  else if isUintFlag v then ((getUintRaw v : Int) : ℚ)
  else if isInt64Flag v then ((getInt64Raw v : Int) : ℚ)
  else ((getUint64Raw v : Int) : ℚ)

/-- Integer payloads constructible through the rapidjson API all lie in
the union of the `int64` and `uint64` ranges. -/
def IntWf : Node → Prop
  | Node.intNum v => int64min ≤ v ∧ v ≤ uint64max
  | _ => True

/-- C truncation toward zero of a floating value, modelling
`static_cast` from `double` to an integer type (the out-of-range case
is undefined behaviour in C++; the model wraps). -/
def ratTrunc (q : ℚ) : Int := if 0 ≤ q then ⌊q⌋ else ⌈q⌉

/-- `static_cast<char>` of an integer, as the byte it stores. -/
def byteChar (v : Int) : Char := Char.ofNat (wrapU 8 v).toNat

/-- `ValueRef::as<char>` (json_value.h 1114-1132): numeric kinds are
truncated to a byte, a non-empty string yields its first byte, and
everything else yields a space. -/
def asChar : Node → Char
  | Node.intNum v =>
    if isIntFlag v then byteChar (getIntRaw v)
    else if isUintFlag v then byteChar (getUintRaw v)
    else if isInt64Flag v then byteChar (getInt64Raw v)
    else if isUint64Flag v then byteChar (getUint64Raw v)
    else ' '
  | Node.double q => byteChar (ratTrunc q)
  | Node.str s => if s.length > 0 then s.headD ' ' else ' '
  | _ => ' '

/-- `ValueRef::as<T>` for a signed integer target of width `w`
(json_value.h 1134-1154, arithmetic overload): any numeric kind is
truncated, bool maps to 0/1, a string goes through `detail::parse`
with default 0 (through `const char*`, hence `cstr`), and everything
else yields 0. -/
def asSigned (w : Nat) : Node → Int
  | Node.intNum v =>
    if isIntFlag v then wrapS w (getIntRaw v)
    else if isUintFlag v then wrapS w (getUintRaw v)
    else if isInt64Flag v then wrapS w (getInt64Raw v)
    else if isUint64Flag v then wrapS w (getUint64Raw v)
    else 0
  | Node.double q => wrapS w (ratTrunc q)
  | Node.bool b => if b then 1 else 0
  | Node.str s => (parseSigned (sMin w) (sMax w) (cstr s)).getD 0
  | _ => 0

/-- `ValueRef::as<T>` for an unsigned integer target of width `w`
(same arithmetic overload, unsigned instantiation). -/
def asUnsigned (w : Nat) : Node → Int
  | Node.intNum v =>
    if isIntFlag v then wrapU w (getIntRaw v)
    else if isUintFlag v then wrapU w (getUintRaw v)
    else if isInt64Flag v then wrapU w (getInt64Raw v)
    else if isUint64Flag v then wrapU w (getUint64Raw v)
    else 0
  | Node.double q => wrapU w (ratTrunc q)
  | Node.bool b => if b then 1 else 0
  | Node.str s => (parseUnsigned (uMax w) (cstr s)).getD 0
  | _ => 0

/-- `ValueRef::as<bool>` (arithmetic overload at `T = bool`):
`static_cast<bool>` of the numeric value, the bool itself, or the
string parsed by `detail::parse<bool>` with default `false`. -/
def asBool : Node → Bool
  | Node.intNum v =>
    if isIntFlag v then getIntRaw v != 0
    else if isUintFlag v then getUintRaw v != 0
    else if isInt64Flag v then getInt64Raw v != 0
    else if isUint64Flag v then getUint64Raw v != 0
    else false
  | Node.double q => q != 0
  | Node.bool b => b
  | Node.str s => (parseBool (cstr s)).getD false
  | _ => false

/-- `ValueRef::as<double>` (arithmetic overload at `T = double`). -/
def asDouble : Node → ℚ
  | Node.intNum v =>
    if isIntFlag v then ((getIntRaw v : Int) : ℚ)
    else if isUintFlag v then ((getUintRaw v : Int) : ℚ)
    else if isInt64Flag v then ((getInt64Raw v : Int) : ℚ)
    else if isUint64Flag v then ((getUint64Raw v : Int) : ℚ)
    else 0
  | Node.double q => q
  | Node.bool b => if b then 1 else 0
  | Node.str s => (parseFloating (cstr s)).getD 0
  | _ => 0

/-- The numeric rendering cascade shared by `as<std::string>` and
`to_string`: `std::to_string` on the first matching accessor, with the
(unreachable for well-formed payloads) trailing `return ""`. -/
def intCascadeText (v : Int) : Str :=
  if isIntFlag v then (toString (getIntRaw v)).data
  else if isUintFlag v then (toString (getUintRaw v)).data
  else if isInt64Flag v then (toString (getInt64Raw v)).data
  else if isUint64Flag v then (toString (getUint64Raw v)).data
  else []

/-- `ValueRef::as<std::string>` (json_value.h 1164-1184). The string
case returns `GetString()` through a `const char*`, so it keeps only
the bytes before the first NUL. `dblFmt` stands for
`std::to_string(double)`. -/
def asString (dblFmt : ℚ → Str) : Node → Str
  | Node.intNum v => intCascadeText v
  | Node.double q => dblFmt q
  | Node.bool b => (if b then "true" else "false").data
  | Node.str s => cstr s
  | _ => []

/-- `ValueRef::get<bool>` (json_value.h 1190-1198). -/
def getBool? : Node → Option Bool
  | Node.bool b => some b
  | _ => none

/-- `ValueRef::get<char>` (json_value.h 1200-1208): a String node of
byte length exactly 1 yields its single byte. -/
def getChar? : Node → Option Char
  | Node.str s => if s.length = 1 then s.head? else none
  | _ => none

/-- `ValueRef::get<T>` for signed `T` with `sizeof(T) == 8`
(json_value.h 1210-1218). -/
def getSigned64? : Node → Option Int
  | Node.intNum v => if isInt64Flag v then some (getInt64Raw v) else none
  | _ => none

/-- `ValueRef::get<T>` for signed `T` of width `w` with
`sizeof(T) < 8` (json_value.h 1220-1228): requires `IsInt()` and
`GetInt()` within the limits of `T`. -/
def getSignedNarrow? (w : Nat) : Node → Option Int
  | Node.intNum v =>
    if isIntFlag v ∧ sMin w ≤ getIntRaw v ∧ getIntRaw v ≤ sMax w
    then some (wrapS w (getIntRaw v))
    else none
  | _ => none

/-- `ValueRef::get<T>` for unsigned `T` with `sizeof(T) == 8`
(json_value.h 1230-1238). -/
def getUnsigned64? : Node → Option Int
  | Node.intNum v => if isUint64Flag v then some (getUint64Raw v) else none
  | _ => none

/-- `ValueRef::get<T>` for unsigned `T` of width `w` with
`sizeof(T) < 8` (json_value.h 1240-1248): requires `IsUint()` and
`GetUint()` within the limits of `T`. -/
def getUnsignedNarrow? (w : Nat) : Node → Option Int
  | Node.intNum v =>
    if isUintFlag v ∧ 0 ≤ getUintRaw v ∧ getUintRaw v ≤ uMax w
    then some (wrapU w (getUintRaw v))
    else none
  | _ => none

/-- `ValueRef::get<T>` for floating-point `T` (json_value.h 1250-1257):
any numeric kind, through `GetDouble()`. -/
def getFloating? : Node → Option ℚ
  | Node.intNum v => some (getDoubleOfInt v)
  | Node.double q => some q
  | _ => none

/-- `ValueRef::get<std::string>` (json_value.h 1268-1275): a
length-aware copy of the bytes. -/
def getString? : Node → Option Str
  | Node.str s => some s
  | _ => none

/-- `ArrayRef::get_vector<T>` (json_value.h 790-809), with `g`
standing for the strict element accessor `get<T>`: the traversal
returns the still-empty optional as soon as one element fails. -/
def get_vector {α : Type} (g : Node → Option α) : List Node → Option (List α)
  | [] => some []
  | n :: ns =>
    match g n with
    | none => none
    | some v =>
      match get_vector g ns with
      | none => none
      | some vs => some (v :: vs)

/-- `ArrayRef::as_vector<T>(func)` (json_value.h 811-824), with `a`
standing for the permissive element accessor `as<T>` and `p` for the
inclusion predicate. -/
def as_vector {α : Type} (a : Node → α) (p : α → Bool) : List Node → List α
  | [] => []
  | n :: ns =>
    let v := a n
    if p v then v :: as_vector a p ns else as_vector a p ns

/-- `ArrayRef::operator[]` (json_value.h 715-720). -/
def arrayIndex (elems : List Node) (idx : Nat) : Except Str Node :=
  if idx ≥ elems.length then Except.error "Array index out_of_range".data
  else Except.ok (elems.getD idx Node.null)

/-- `ValueRef::operator[](size_t)` (json_value.h 394-401): array-kind
check, range check, then `ArrayRef` indexing. -/
def valueIndex (n : Node) (idx : Nat) : Except Str Node :=
  match n with
  | Node.arr elems =>
    if idx ≥ elems.length then Except.error "ValueRef[idx] out_of_range".data
    else arrayIndex elems idx
  | _ => Except.error "ValueRef is not array type".data

/-- The member list of an Object node. -/
abbrev Members := List (Str × Node)

/-- rapidjson `FindMember`: the first member whose key equals `k`
byte-wise (length-aware comparison). -/
def findMember (ms : Members) (k : Str) : Option (Str × Node) :=
  ms.find? (fun m => m.1 == k)

/-- `ObjectRef::find` (json_value.h 993-1001): non-mutating optional
lookup of the member value. -/
def objFind (ms : Members) (k : Str) : Option Node :=
  (findMember ms k).map Prod.snd

/-- `ObjectRef::find` as a state transformer: it leaves the object
unchanged. -/
def objFindOp (ms : Members) (k : Str) : Members × Option Node :=
  (ms, objFind ms k)

/-- `ObjectRef::operator[]` (json_value.h 965-973): present-or-create.
A missing key appends a member with a Null value
(`AddMember(key, rapidjson::Value(), alloc)`) and the returned
reference is that new last member's value. -/
def objIndex (ms : Members) (k : Str) : Members × Node :=
  match findMember ms k with
  | some m => (ms, m.2)
  | none => (ms ++ [(k, Node.null)], Node.null)

/-- `ValueRef::to_string(max_len)` (json_value.h 511-538). `writer`
stands for the external rapidjson writer running on a private copy of
the node, `dblFmt` for `std::to_string(double)`. Only the writer
branch truncates. -/
def to_string (writer : Node → Str) (dblFmt : ℚ → Str) (maxLen : Nat) : Node → Str
  | Node.null => "Null".data
  | Node.intNum v => intCascadeText v
  | Node.double q => dblFmt q
  | Node.bool b => (if b then "true" else "false").data
  | n =>
    let s := writer n
    if s.length > maxLen then s.take maxLen ++ "...".data else s

/-! Arithmetic helper lemmas about the wrapping casts and the flag
predicates. -/

set_option exponentiation.threshold 1100 in
/-- The numeral `dmaxZ` is `2^1024 - 2^971`. -/
theorem dmaxZ_eq : dmaxZ = (2:Int)^1024 - (2:Int)^971 := by
  unfold dmaxZ
  norm_num

set_option exponentiation.threshold 1100 in
/-- The integer overflow test agrees with the rational threshold: the
decimal magnitude exceeds `dblMax` exactly when `decOverflow` says
so. -/
theorem decOverflow_iff (ip fp flen : Nat) (e : Int) :
    decOverflow ip fp flen e = true ↔
      dblMax < ((ip : ℚ) + (fp : ℚ) / (10:ℚ)^flen) * (10:ℚ)^e := by
  have h10f : (0:ℚ) < (10:ℚ)^flen := by positivity
  have hmag : ((ip : ℚ) + (fp : ℚ) / (10:ℚ)^flen)
      = (((ip : Int) * 10^flen + (fp : Int) : Int) : ℚ) / (10:ℚ)^flen := by
    push_cast
    field_simp
  have hdm : dblMax = (((2:Int)^1024 - (2:Int)^971 : Int) : ℚ) := by
    unfold dblMax
    push_cast
    ring
  rcases le_or_lt 0 e with he | he
  · have hz : (10:ℚ)^e = (10:ℚ)^(e.toNat) := by
      conv_lhs => rw [show e = ((e.toNat : ℕ) : Int) from (Int.toNat_of_nonneg he).symm]
      rw [zpow_natCast]
    simp only [decOverflow]
    rw [if_pos he]
    simp only [decide_eq_true_eq]
    rw [dmaxZ_eq, hmag, hdm, hz, div_mul_eq_mul_div, lt_div_iff₀ h10f]
    constructor
    · intro h
      exact_mod_cast h
    · intro h
      exact_mod_cast h
  · have hz : (10:ℚ)^e = ((10:ℚ)^((-e).toNat))⁻¹ := by
      conv_lhs => rw [show e = -(((-e).toNat : ℕ) : Int) from by
        rw [Int.toNat_of_nonneg (by omega : (0:Int) ≤ -e)]
        ring]
      rw [zpow_neg, zpow_natCast]
    simp only [decOverflow]
    rw [if_neg (by omega)]
    simp only [decide_eq_true_eq]
    rw [dmaxZ_eq, hmag, hdm, hz, ← div_eq_mul_inv, div_div, lt_div_iff₀ (by positivity),
      ← mul_assoc]
    constructor
    · intro h
      exact_mod_cast h
    · intro h
      exact_mod_cast h

theorem wrapU_id (w : Nat) (v : Int) (h1 : 0 ≤ v) (h2 : v < (2:Int)^w) :
    wrapU w v = v := by
  unfold wrapU
  exact Int.emod_eq_of_lt h1 h2

theorem wrapS_id (w : Nat) (hw : 0 < w) (v : Int)
    (h1 : -((2:Int)^(w-1)) ≤ v) (h2 : v < (2:Int)^(w-1)) : wrapS w v = v := by
  have hpow : (2:Int)^w = 2 * (2:Int)^(w-1) := by
    conv_lhs => rw [show w = (w-1) + 1 from by omega]
    rw [pow_succ]
    ring
  have h0 : (0:Int) ≤ v + (2:Int)^(w-1) := by omega
  have hlt : v + (2:Int)^(w-1) < (2:Int)^w := by omega
  unfold wrapS
  rw [Int.emod_eq_of_lt h0 hlt]
  omega

theorem isIntFlag_iff (v : Int) :
    isIntFlag v = true ↔ -2147483648 ≤ v ∧ v ≤ 2147483647 := by
  simp [isIntFlag, int32min, int32max]

theorem isUintFlag_iff (v : Int) :
    isUintFlag v = true ↔ 0 ≤ v ∧ v ≤ 4294967295 := by
  simp [isUintFlag, uint32max]

theorem isInt64Flag_iff (v : Int) :
    isInt64Flag v = true ↔ -9223372036854775808 ≤ v ∧ v ≤ 9223372036854775807 := by
  simp [isInt64Flag, int64min, int64max]

theorem isUint64Flag_iff (v : Int) :
    isUint64Flag v = true ↔ 0 ≤ v ∧ v ≤ 18446744073709551615 := by
  simp [isUint64Flag, uint64max]

theorem getIntRaw_id (v : Int) (h : isIntFlag v = true) : getIntRaw v = v := by
  rw [isIntFlag_iff] at h
  have e : ((2:Int)^(32-1)) = 2147483648 := by norm_num
  refine wrapS_id 32 (by norm_num) v ?_ ?_ <;> rw [e] <;> omega

theorem getUintRaw_id (v : Int) (h : isUintFlag v = true) : getUintRaw v = v := by
  rw [isUintFlag_iff] at h
  have e : ((2:Int)^32) = 4294967296 := by norm_num
  exact wrapU_id 32 v (by omega) (by rw [e]; omega)

theorem getInt64Raw_id (v : Int) (h : isInt64Flag v = true) : getInt64Raw v = v := by
  rw [isInt64Flag_iff] at h
  have e : ((2:Int)^(64-1)) = 9223372036854775808 := by norm_num
  refine wrapS_id 64 (by norm_num) v ?_ ?_ <;> rw [e] <;> omega

theorem getUint64Raw_id (v : Int) (h : isUint64Flag v = true) : getUint64Raw v = v := by
  rw [isUint64Flag_iff] at h
  have e : ((2:Int)^64) = 18446744073709551616 := by norm_num
  exact wrapU_id 64 v (by omega) (by rw [e]; omega)

theorem isIntFlag_to_int64 (v : Int) (h : isIntFlag v = true) :
    isInt64Flag v = true := by
  rw [isIntFlag_iff] at h
  rw [isInt64Flag_iff]
  omega

theorem isUintFlag_to_uint64 (v : Int) (h : isUintFlag v = true) :
    isUint64Flag v = true := by
  rw [isUintFlag_iff] at h
  rw [isUint64Flag_iff]
  omega

theorem cstr_eq_self (s : Str) (h : '\x00' ∉ s) : cstr s = s := by
  induction s with
  | nil => rfl
  | cons c t ih =>
    have hc : (c != '\x00') = true := by
      simp only [bne_iff_ne, ne_eq]
      exact fun he => h (by simp [he])
    have ht : '\x00' ∉ t := fun hm => h (List.mem_cons_of_mem _ hm)
    simp only [cstr] at ih ⊢
    simp [List.takeWhile, hc, ih ht]

/-- On an integer node with the `int64` flag, the permissive signed
cascade reduces to a single truncation of the stored value. -/
theorem asSigned_intNum (w : Nat) (v : Int) (h64 : isInt64Flag v = true) :
    asSigned w (Node.intNum v) = wrapS w v := by
  simp only [asSigned]
  by_cases h1 : isIntFlag v = true
  · simp [h1, getIntRaw_id v h1]
  · by_cases h2 : isUintFlag v = true
    · simp [h1, h2, getUintRaw_id v h2]
    · simp [h1, h2, h64, getInt64Raw_id v h64]

/-- On an integer node with the `uint64` flag, the permissive unsigned
cascade reduces to a single truncation of the stored value. -/
theorem asUnsigned_intNum (w : Nat) (v : Int) (h64 : isUint64Flag v = true) :
    asUnsigned w (Node.intNum v) = wrapU w v := by
  simp only [asUnsigned]
  by_cases h1 : isIntFlag v = true
  · simp [h1, getIntRaw_id v h1]
  · by_cases h2 : isUintFlag v = true
    · simp [h1, h2, getUintRaw_id v h2]
    · by_cases h3 : isInt64Flag v = true
      · simp [h1, h2, h3, getInt64Raw_id v h3]
      · simp [h1, h2, h3, h64, getUint64Raw_id v h64]

/-- C9: `get<char>` yields a value exactly when the Node is a String
whose byte length is exactly 1, in which case it yields that single
character; on a String of any other length (including the empty
string) and on every non-String kind it yields no value. -/
theorem C9_main : ∀ (n : Node) (c : Char), getChar? n = some c ↔ n = Node.str [c] := by
  intro n c
  cases n with
  | str s =>
    match s with
    | [] => simp [getChar?]
    | [a] => simp [getChar?]
    | a :: b :: u => simp [getChar?]
  | null => simp [getChar?]
  | bool b => simp [getChar?]
  | intNum v => simp [getChar?]
  | double q => simp [getChar?]
  | arr l => simp [getChar?]
  | obj ms => simp [getChar?]

theorem C9_witness : getChar? (Node.str ['a']) = some 'a' :=
  (C9_main (Node.str ['a']) 'a').mpr rfl

/-- C2: indexing an Object that has no member with key `k` appends a
Null-valued member for `k` (raising the member count by exactly 1) and
returns that Null value, while `find` on the same state leaves the
members unchanged and returns the empty optional. -/
theorem C2_main : ∀ (ms : Members) (k : Str), (∀ m ∈ ms, m.1 ≠ k) →
    (objIndex ms k).1 = ms ++ [(k, Node.null)] ∧
    (objIndex ms k).1.length = ms.length + 1 ∧
    (objIndex ms k).2 = Node.null ∧
    objFindOp ms k = (ms, none) := by
  intro ms k h
  have hfind : findMember ms k = none := by
    unfold findMember
    rw [List.find?_eq_none]
    intro m hm
    simpa using h m hm
  refine ⟨?_, ?_, ?_, ?_⟩ <;> simp [objIndex, objFindOp, objFind, hfind]

theorem C2_witness :
    (objIndex [] ['a']).1 = [(['a'], Node.null)] ∧
    (objIndex [] ['a']).1.length = 0 + 1 ∧
    (objIndex [] ['a']).2 = Node.null ∧
    objFindOp [] ['a'] = ([], none) := by
  have h := C2_main [] ['a'] (by intro m hm; cases hm)
  simpa using h

/-- C5: array indexing with `i ≥ size` raises the out-of-range error on
both the `ArrayRef` and the `ValueRef` path, and with `i < size` it
never fails, returning the `i`-th element. -/
theorem C5_main : ∀ (elems : List Node) (idx : Nat),
    (idx ≥ elems.length →
      (∃ e, arrayIndex elems idx = Except.error e) ∧
      (∃ e, valueIndex (Node.arr elems) idx = Except.error e)) ∧
    (idx < elems.length →
      arrayIndex elems idx = Except.ok (elems.getD idx Node.null) ∧
      valueIndex (Node.arr elems) idx = Except.ok (elems.getD idx Node.null)) := by
  intro elems idx
  constructor
  · intro hge
    refine ⟨⟨"Array index out_of_range".data, ?_⟩,
            ⟨"ValueRef[idx] out_of_range".data, ?_⟩⟩
    · unfold arrayIndex
      rw [if_pos hge]
    · simp only [valueIndex]
      rw [if_pos hge]
  · intro hlt
    have hnge : ¬ idx ≥ elems.length := by omega
    refine ⟨?_, ?_⟩
    · unfold arrayIndex
      rw [if_neg hnge]
    · simp only [valueIndex]
      rw [if_neg hnge]
      unfold arrayIndex
      rw [if_neg hnge]

theorem C5_witness :
    (∃ e, arrayIndex [Node.null] 1 = Except.error e) ∧
    arrayIndex [Node.null] 0 = Except.ok Node.null := by
  refine ⟨((C5_main [Node.null] 1).1 (by simp)).1, ?_⟩
  have h := ((C5_main [Node.null] 0).2 (by simp)).1
  simpa using h

/-- C10: the strict unsigned-integer parse rejects any input containing
a minus sign anywhere, even though the modelled `strtoul` itself would
consume `"-5"` fully and wrap it to `2^64 - 5` without `ERANGE`. -/
theorem C10_main :
    (∀ (M : Int) (s : Str), s.contains '-' = true → parseUnsigned M s = none) ∧
    (strtoulModel ("-5".data)).consumed = 2 ∧
    (strtoulModel ("-5".data)).value = 18446744073709551611 ∧
    (strtoulModel ("-5".data)).erange = false := by
  refine ⟨?_, by decide, by decide, by decide⟩
  intro M s h
  unfold parseUnsigned
  rw [if_pos (by rw [h, Bool.or_true])]

theorem C10_witness : parseUnsigned uint64max ("-5".data) = none :=
  C10_main.1 uint64max ("-5".data) (by decide)

/-- C4: `as_vector` applies the permissive accessor to every element in
order and keeps a converted value exactly when the predicate holds;
the default predicate keeps everything; on the array `[1, "x", 3]` the
int instantiation yields `[1, 0, 3]`, the unparsable string degrading
to zero rather than being skipped. -/
theorem C4_main :
    (∀ {α : Type} (a : Node → α) (p : α → Bool) (l : List Node),
      as_vector a p l = (l.map a).filter p) ∧
    (∀ {α : Type} (a : Node → α) (l : List Node),
      as_vector a (fun _ => true) l = l.map a) ∧
    as_vector (asSigned 32) (fun _ => true)
      [Node.intNum 1, Node.str ['x'], Node.intNum 3] = [1, 0, 3] := by
  have hmap : ∀ {α : Type} (a : Node → α) (p : α → Bool) (l : List Node),
      as_vector a p l = (l.map a).filter p := by
    intro α a p l
    induction l with
    | nil => rfl
    | cons n ns ih =>
      by_cases hp : p (a n) = true
      · simp [as_vector, hp, ih, List.filter_cons]
      · simp [as_vector, hp, ih, List.filter_cons]
  refine ⟨hmap, ?_, by decide⟩
  intro α a l
  rw [hmap]
  induction l with
  | nil => rfl
  | cons n ns ih => simp [List.filter_cons, ih]

theorem C4_witness :
    as_vector asBool (fun b => b) [Node.bool true, Node.bool false] = [true] := by
  have h := C4_main.1 asBool (fun b => b) [Node.bool true, Node.bool false]
  rw [h]
  decide

/-- C3: `get_vector` is all-or-nothing: it yields exactly the list of
strict per-element results, in order, when every element converts, and
the empty optional as soon as any element fails; in particular the int
instantiation on `[1, "x", 3]` yields no result. -/
theorem C3_main :
    (∀ {α : Type} (g : Node → Option α) (l : List Node),
      (get_vector g l = none ↔ ∃ n ∈ l, g n = none) ∧
      ∀ vs, get_vector g l = some vs ↔ List.Forall₂ (fun n v => g n = some v) l vs) ∧
    get_vector (getSignedNarrow? 32)
      [Node.intNum 1, Node.str ['x'], Node.intNum 3] = none := by
  refine ⟨?_, by decide⟩
  intro α g l
  induction l with
  | nil =>
    constructor
    · simp [get_vector]
    · intro vs
      simp [get_vector, List.forall₂_nil_left_iff, eq_comm]
  | cons n ns ih =>
    obtain ⟨ih1, ih2⟩ := ih
    cases hg : g n with
    | none =>
      constructor
      · constructor
        · intro _
          exact ⟨n, List.mem_cons_self n ns, hg⟩
        · intro _
          simp [get_vector, hg]
      · intro vs
        constructor
        · intro hEq
          simp [get_vector, hg] at hEq
        · intro hF
          rcases List.forall₂_cons_left_iff.mp hF with ⟨b, u, hb, _, _⟩
          simp [hg] at hb
    | some v =>
      constructor
      · cases hv : get_vector g ns with
        | none =>
          constructor
          · intro _
            rcases ih1.mp hv with ⟨m, hm, hgm⟩
            exact ⟨m, List.mem_cons_of_mem _ hm, hgm⟩
          · intro _
            simp [get_vector, hg, hv]
        | some vs0 =>
          constructor
          · intro hEq
            simp [get_vector, hg, hv] at hEq
          · intro hEx
            rcases hEx with ⟨m, hm, hgm⟩
            rcases List.mem_cons.mp hm with rfl | hm2
            · rw [hg] at hgm
              exact Option.noConfusion hgm
            · have hnone : get_vector g ns = none := ih1.mpr ⟨m, hm2, hgm⟩
              rw [hv] at hnone
              exact Option.noConfusion hnone
      · intro vs
        cases hv : get_vector g ns with
        | none =>
          constructor
          · intro hEq
            simp [get_vector, hg, hv] at hEq
          · intro hF
            rcases List.forall₂_cons_left_iff.mp hF with ⟨b, u, hb, hu, rfl⟩
            have hsome := (ih2 u).mpr hu
            rw [hv] at hsome
            exact Option.noConfusion hsome
        | some vs0 =>
          have hred : get_vector g (n :: ns) = some (v :: vs0) := by
            simp [get_vector, hg, hv]
          rw [hred]
          constructor
          · intro hEq
            injection hEq with hEq
            subst hEq
            exact List.Forall₂.cons hg ((ih2 vs0).mp hv)
          · intro hF
            rcases List.forall₂_cons_left_iff.mp hF with ⟨b, u, hb, hu, rfl⟩
            rw [hg] at hb
            injection hb with hb
            subst hb
            have hsome := (ih2 u).mpr hu
            rw [hv] at hsome
            injection hsome with hsome
            subst hsome
            rfl

theorem C3_witness : get_vector getBool? [Node.bool true] = some [true] :=
  ((C3_main.1 getBool? [Node.bool true]).2 [true]).mpr
    (List.Forall₂.cons rfl List.Forall₂.nil)

/-- C6: for fixed-width integer targets narrower than the tree's
64-bit integers, the strict accessor succeeds exactly when the node is
an integer of the matching signed/unsigned family whose stored value
lies in `[min(T), max(T)]`; in particular `get<int8_t>` on a node
holding 1000 is empty and on a node holding 100 yields 100. -/
theorem C6_main :
    (∀ (w : Nat) (n : Node) (x : Int), 0 < w → w ≤ 32 →
      (getSignedNarrow? w n = some x ↔
        ∃ v, n = Node.intNum v ∧ isInt64Flag v = true ∧
          sMin w ≤ v ∧ v ≤ sMax w ∧ x = v)) ∧
    (∀ (w : Nat) (n : Node) (x : Int), 0 < w → w ≤ 32 →
      (getUnsignedNarrow? w n = some x ↔
        ∃ v, n = Node.intNum v ∧ isUint64Flag v = true ∧
          0 ≤ v ∧ v ≤ uMax w ∧ x = v)) ∧
    getSignedNarrow? 8 (Node.intNum 1000) = none ∧
    getSignedNarrow? 8 (Node.intNum 100) = some 100 := by
  refine ⟨?_, ?_, by decide, by decide⟩
  · intro w n x hw hle
    have hpw : (2:Int)^(w-1) ≤ (2:Int)^31 := by
      apply pow_le_pow_right₀ (by norm_num)
      omega
    have e31 : ((2:Int)^31) = 2147483648 := by norm_num
    rw [e31] at hpw
    constructor
    · intro h
      cases n with
      | intNum v =>
        simp only [getSignedNarrow?] at h
        by_cases hc : isIntFlag v = true ∧ sMin w ≤ getIntRaw v ∧ getIntRaw v ≤ sMax w
        · rw [if_pos hc] at h
          injection h with h
          obtain ⟨hf, hlo, hhi⟩ := hc
          rw [getIntRaw_id v hf] at hlo hhi h
          refine ⟨v, rfl, isIntFlag_to_int64 v hf, hlo, hhi, ?_⟩
          rw [← h]
          unfold sMin at hlo
          unfold sMax at hhi
          exact wrapS_id w hw v hlo (by omega)
        · rw [if_neg hc] at h
          exact Option.noConfusion h
      | null => simp [getSignedNarrow?] at h
      | bool b => simp [getSignedNarrow?] at h
      | double q => simp [getSignedNarrow?] at h
      | str s => simp [getSignedNarrow?] at h
      | arr l => simp [getSignedNarrow?] at h
      | obj ms => simp [getSignedNarrow?] at h
    · rintro ⟨v, rfl, h64, hlo, hhi, hx⟩
      rw [hx]
      have hf : isIntFlag v = true := by
        rw [isIntFlag_iff]
        unfold sMin at hlo
        unfold sMax at hhi
        omega
      have hid := getIntRaw_id v hf
      simp only [getSignedNarrow?]
      rw [if_pos (by rw [hid]; exact ⟨hf, hlo, hhi⟩)]
      rw [hid]
      unfold sMin at hlo
      unfold sMax at hhi
      rw [wrapS_id w hw v hlo (by omega)]
  · intro w n x hw hle
    have hpw : (2:Int)^w ≤ (2:Int)^32 := by
      apply pow_le_pow_right₀ (by norm_num)
      omega
    have e32 : ((2:Int)^32) = 4294967296 := by norm_num
    rw [e32] at hpw
    constructor
    · intro h
      cases n with
      | intNum v =>
        simp only [getUnsignedNarrow?] at h
        by_cases hc : isUintFlag v = true ∧ 0 ≤ getUintRaw v ∧ getUintRaw v ≤ uMax w
        · rw [if_pos hc] at h
          injection h with h
          obtain ⟨hf, hlo, hhi⟩ := hc
          rw [getUintRaw_id v hf] at hlo hhi h
          refine ⟨v, rfl, isUintFlag_to_uint64 v hf, hlo, hhi, ?_⟩
          rw [← h]
          unfold uMax at hhi
          exact wrapU_id w v hlo (by omega)
        · rw [if_neg hc] at h
          exact Option.noConfusion h
      | null => simp [getUnsignedNarrow?] at h
      | bool b => simp [getUnsignedNarrow?] at h
      | double q => simp [getUnsignedNarrow?] at h
      | str s => simp [getUnsignedNarrow?] at h
      | arr l => simp [getUnsignedNarrow?] at h
      | obj ms => simp [getUnsignedNarrow?] at h
    · rintro ⟨v, rfl, h64, hlo, hhi, hx⟩
      rw [hx]
      have hf : isUintFlag v = true := by
        rw [isUintFlag_iff]
        unfold uMax at hhi
        omega
      have hid := getUintRaw_id v hf
      simp only [getUnsignedNarrow?]
      rw [if_pos (by rw [hid]; exact ⟨hf, hlo, hhi⟩)]
      rw [hid]
      unfold uMax at hhi
      rw [wrapU_id w v hlo (by omega)]

theorem C6_witness : getSignedNarrow? 8 (Node.intNum 100) = some 100 :=
  (C6_main.1 8 (Node.intNum 100) 100 (by decide) (by decide)).mpr
    ⟨100, rfl, by decide, by decide, by decide, rfl⟩

/-- C1 (amended): whenever the strict accessor `get<T>` succeeds, the
permissive accessor `as<T>` yields exactly the same value, for `T`
among bool, char, the fixed-width signed/unsigned integers and double
(the latter on API-constructible integer payloads); for
`T = std::string` this holds provided the stored string has no
embedded NUL byte, because `as<std::string>` reads the bytes through a
`const char*`. -/
theorem C1_main :
    (∀ (n : Node) (b : Bool), getBool? n = some b → asBool n = b) ∧
    (∀ (n : Node) (c : Char), getChar? n = some c → asChar n = c) ∧
    (∀ (n : Node) (x : Int), getSigned64? n = some x → asSigned 64 n = x) ∧
    (∀ (w : Nat) (n : Node) (x : Int),
      getSignedNarrow? w n = some x → asSigned w n = x) ∧
    (∀ (n : Node) (x : Int), getUnsigned64? n = some x → asUnsigned 64 n = x) ∧
    (∀ (w : Nat) (n : Node) (x : Int),
      getUnsignedNarrow? w n = some x → asUnsigned w n = x) ∧
    (∀ (n : Node) (q : ℚ), IntWf n → getFloating? n = some q → asDouble n = q) ∧
    (∀ (dblFmt : ℚ → Str) (n : Node) (s : Str), '\x00' ∉ s →
      getString? n = some s → asString dblFmt n = s) := by
  refine ⟨?_, ?_, ?_, ?_, ?_, ?_, ?_, ?_⟩
  · intro n b h
    cases n <;> simp_all [getBool?, asBool]
  · intro n c h
    cases n with
    | str s =>
      cases s with
      | nil => simp [getChar?] at h
      | cons a t =>
        simp only [getChar?] at h
        by_cases hl : (a :: t).length = 1
        · rw [if_pos hl] at h
          simp only [List.head?] at h
          injection h with h
          subst h
          simp [asChar]
        · rw [if_neg hl] at h
          exact Option.noConfusion h
    | null => simp [getChar?] at h
    | bool b => simp [getChar?] at h
    | intNum v => simp [getChar?] at h
    | double q => simp [getChar?] at h
    | arr l => simp [getChar?] at h
    | obj ms => simp [getChar?] at h
  · intro n x h
    cases n with
    | intNum v =>
      simp only [getSigned64?] at h
      by_cases h64 : isInt64Flag v = true
      · rw [if_pos h64] at h
        injection h with h
        rw [← h, asSigned_intNum 64 v h64]
        rfl
      · rw [if_neg h64] at h
        exact Option.noConfusion h
    | null => simp [getSigned64?] at h
    | bool b => simp [getSigned64?] at h
    | double q => simp [getSigned64?] at h
    | str s => simp [getSigned64?] at h
    | arr l => simp [getSigned64?] at h
    | obj ms => simp [getSigned64?] at h
  · intro w n x h
    cases n with
    | intNum v =>
      simp only [getSignedNarrow?] at h
      by_cases hc : isIntFlag v = true ∧ sMin w ≤ getIntRaw v ∧ getIntRaw v ≤ sMax w
      · rw [if_pos hc] at h
        injection h with h
        rw [← h, asSigned_intNum w v (isIntFlag_to_int64 v hc.1),
          getIntRaw_id v hc.1]
      · rw [if_neg hc] at h
        exact Option.noConfusion h
    | null => simp [getSignedNarrow?] at h
    | bool b => simp [getSignedNarrow?] at h
    | double q => simp [getSignedNarrow?] at h
    | str s => simp [getSignedNarrow?] at h
    | arr l => simp [getSignedNarrow?] at h
    | obj ms => simp [getSignedNarrow?] at h
  · intro n x h
    cases n with
    | intNum v =>
      simp only [getUnsigned64?] at h
      by_cases h64 : isUint64Flag v = true
      · rw [if_pos h64] at h
        injection h with h
        rw [← h, asUnsigned_intNum 64 v h64]
        rfl
      · rw [if_neg h64] at h
        exact Option.noConfusion h
    | null => simp [getUnsigned64?] at h
    | bool b => simp [getUnsigned64?] at h
    | double q => simp [getUnsigned64?] at h
    | str s => simp [getUnsigned64?] at h
    | arr l => simp [getUnsigned64?] at h
    | obj ms => simp [getUnsigned64?] at h
  · intro w n x h
    cases n with
    | intNum v =>
      simp only [getUnsignedNarrow?] at h
      by_cases hc : isUintFlag v = true ∧ 0 ≤ getUintRaw v ∧ getUintRaw v ≤ uMax w
      · rw [if_pos hc] at h
        injection h with h
        rw [← h, asUnsigned_intNum w v (isUintFlag_to_uint64 v hc.1),
          getUintRaw_id v hc.1]
      · rw [if_neg hc] at h
        exact Option.noConfusion h
    | null => simp [getUnsignedNarrow?] at h
    | bool b => simp [getUnsignedNarrow?] at h
    | double q => simp [getUnsignedNarrow?] at h
    | str s => simp [getUnsignedNarrow?] at h
    | arr l => simp [getUnsignedNarrow?] at h
    | obj ms => simp [getUnsignedNarrow?] at h
  · intro n q hwf h
    cases n with
    | intNum v =>
      simp only [getFloating?] at h
      injection h with h
      rw [← h]
      simp only [IntWf] at hwf
      simp only [asDouble, getDoubleOfInt]
      by_cases h1 : isIntFlag v = true
      · rw [if_pos h1, if_pos h1]
      · rw [if_neg h1, if_neg h1]
        by_cases h2 : isUintFlag v = true
        · rw [if_pos h2, if_pos h2]
        · rw [if_neg h2, if_neg h2]
          by_cases h3 : isInt64Flag v = true
          · rw [if_pos h3, if_pos h3]
          · rw [if_neg h3, if_neg h3]
            have h4 : isUint64Flag v = true := by
              rw [isInt64Flag_iff] at h3
              rw [isUint64Flag_iff]
              unfold int64min uint64max at hwf
              omega
            rw [if_pos h4]
    | double q0 =>
      simp only [getFloating?] at h
      injection h with h
    | null => simp [getFloating?] at h
    | bool b => simp [getFloating?] at h
    | str s => simp [getFloating?] at h
    | arr l => simp [getFloating?] at h
    | obj ms => simp [getFloating?] at h
  · intro dblFmt n s hnul h
    cases n with
    | str s0 =>
      simp only [getString?] at h
      injection h with h
      subst h
      simp only [asString]
      exact cstr_eq_self s0 hnul
    | null => simp [getString?] at h
    | bool b => simp [getString?] at h
    | intNum v => simp [getString?] at h
    | double q => simp [getString?] at h
    | arr l => simp [getString?] at h
    | obj ms => simp [getString?] at h

/-- C1 counterexample: on a String node containing an embedded NUL
byte, `get<std::string>` succeeds with all three bytes while
`as<std::string>` returns only the prefix before the NUL, so the two
accessors disagree even though the strict one succeeded. -/
theorem C1_cex :
    getString? (Node.str ['a', '\x00', 'b']) = some ['a', '\x00', 'b'] ∧
    asString (fun _ => []) (Node.str ['a', '\x00', 'b']) = ['a'] := by
  exact ⟨rfl, by decide⟩

theorem C1_witness : asBool (Node.bool true) = true :=
  C1_main.1 (Node.bool true) true rfl

/-- C7: under every locale decimal-point character, the three numeric
text parsers reject empty input, reject trailing garbage after a
partial parse, and reject overflow; on any of these the strict path
yields no value and the two-argument permissive path yields its
default (zero at the permissive accessor's call sites). But the parser
is NOT locale-independent: at the same input `"1.5"` the
floating-point parse succeeds under the "C" locale's `'.'` radix and
fails under a `','` radix (a comma-decimal `LC_NUMERIC`), and
conversely for `"1,5"` — the outcome follows the locale exactly as
`strtod`'s subject sequence does. Concrete rejection instances
exercise partial parses (`"12x"`, `"1.5x"`) and overflows (20 nines
for `strtol`, `2^64` for `strtoul`). -/
theorem C7_main :
    (∀ m M : Int, parseSigned m M [] = none) ∧
    (∀ M : Int, parseUnsigned M [] = none) ∧
    (∀ radix : Char, parseFloatingLoc radix [] = none) ∧
    (∀ (m M : Int) (s : Str), (strtolModel (cstr s)).consumed < (cstr s).length →
      parseSigned m M s = none) ∧
    (∀ (M : Int) (s : Str), (strtoulModel (cstr s)).consumed < (cstr s).length →
      parseUnsigned M s = none) ∧
    (∀ (radix : Char) (s : Str),
      (strtodModelLoc radix (cstr s)).consumed < (cstr s).length →
      parseFloatingLoc radix s = none) ∧
    (∀ (m M : Int) (s : Str), (strtolModel (cstr s)).erange = true →
      parseSigned m M s = none) ∧
    (∀ (M : Int) (s : Str), (strtoulModel (cstr s)).erange = true →
      parseUnsigned M s = none) ∧
    (∀ (radix : Char) (s : Str), (strtodModelLoc radix (cstr s)).erange = true →
      parseFloatingLoc radix s = none) ∧
    (∀ (m M : Int) (s : Str) (d : Int), parseSigned m M s = none →
      parseSignedD m M s d = d) ∧
    (∀ (M : Int) (s : Str) (d : Int), parseUnsigned M s = none →
      parseUnsignedD M s d = d) ∧
    (∀ (radix : Char) (s : Str) (d : ℚ), parseFloatingLoc radix s = none →
      parseFloatingLocD radix s d = d) ∧
    parseSigned int64min int64max ("12x".data) = none ∧
    parseSigned int64min int64max ("99999999999999999999".data) = none ∧
    parseUnsigned uint64max ("18446744073709551616".data) = none ∧
    parseFloatingLoc '.' ("1.5x".data) = none ∧
    parseFloatingLoc '.' ("1.5".data) ≠ none ∧
    parseFloatingLoc ',' ("1.5".data) = none ∧
    parseFloatingLoc ',' ("1,5".data) ≠ none ∧
    parseFloatingLoc '.' ("1,5".data) = none := by
  refine ⟨fun m M => rfl, fun M => rfl, fun radix => rfl, ?_, ?_, ?_, ?_, ?_, ?_,
    ?_, ?_, ?_, by decide, by decide, by decide, by decide, by decide, by decide,
    by decide, by decide⟩
  · intro m M s h
    simp only [parseSigned]
    by_cases he : s.isEmpty = true
    · rw [if_pos he]
    · rw [if_neg he, if_neg ?_]
      intro hc
      exact absurd hc.2.1 (by omega)
  · intro M s h
    simp only [parseUnsigned]
    by_cases he : (s.isEmpty || s.contains '-') = true
    · rw [if_pos he]
    · rw [if_neg he, if_neg ?_]
      intro hc
      exact absurd hc.2.1 (by omega)
  · intro radix s h
    simp only [parseFloatingLoc]
    by_cases he : s.isEmpty = true
    · rw [if_pos he]
    · rw [if_neg he, if_neg ?_]
      intro hc
      exact absurd hc.2.1 (by omega)
  · intro m M s h
    simp only [parseSigned]
    by_cases he : s.isEmpty = true
    · rw [if_pos he]
    · rw [if_neg he, if_neg ?_]
      intro hc
      have hco := hc.2.2.2.2
      rw [h] at hco
      exact Bool.noConfusion hco
  · intro M s h
    simp only [parseUnsigned]
    by_cases he : (s.isEmpty || s.contains '-') = true
    · rw [if_pos he]
    · rw [if_neg he, if_neg ?_]
      intro hc
      have hco := hc.2.2.2.2
      rw [h] at hco
      exact Bool.noConfusion hco
  · intro radix s h
    simp only [parseFloatingLoc]
    by_cases he : s.isEmpty = true
    · rw [if_pos he]
    · rw [if_neg he, if_neg ?_]
      intro hc
      have hco := hc.2.2
      rw [h] at hco
      exact Bool.noConfusion hco
  · intro m M s d h
    unfold parseSignedD
    rw [h]
    rfl
  · intro M s d h
    unfold parseUnsignedD
    rw [h]
    rfl
  · intro radix s d h
    unfold parseFloatingLocD
    rw [h]
    rfl

theorem C7_witness : parseSigned int64min int64max ("12x".data) = none := by
  have h := C7_main.2.2.2.1 int64min int64max ("12x".data) (by decide)
  exact h

/-- C8 (amended): `to_string` renders null as `"Null"`, booleans as
`"true"`/`"false"` and numbers via their native decimal text, all of
these WITHOUT truncation regardless of `max_len`; only the
writer-rendered kinds (string/array/object) are truncated, to
`max_len` bytes with a trailing `"..."`, exactly when the writer
output exceeds `max_len` bytes. -/
theorem C8_main : ∀ (writer : Node → Str) (dblFmt : ℚ → Str) (maxLen : Nat),
    to_string writer dblFmt maxLen Node.null = "Null".data ∧
    (∀ b, to_string writer dblFmt maxLen (Node.bool b) =
      (if b then "true" else "false").data) ∧
    (∀ v : Int, int64min ≤ v → v ≤ uint64max →
      to_string writer dblFmt maxLen (Node.intNum v) = (toString v).data) ∧
    (∀ q, to_string writer dblFmt maxLen (Node.double q) = dblFmt q) ∧
    (∀ n, ((∃ s, n = Node.str s) ∨ (∃ l, n = Node.arr l) ∨ (∃ ms, n = Node.obj ms)) →
      ((writer n).length ≤ maxLen → to_string writer dblFmt maxLen n = writer n) ∧
      ((writer n).length > maxLen →
        to_string writer dblFmt maxLen n = (writer n).take maxLen ++ "...".data)) := by
  intro writer dblFmt maxLen
  have hcasc : ∀ v : Int, int64min ≤ v → v ≤ uint64max →
      intCascadeText v = (toString v).data := by
    intro v h1 h2
    simp only [intCascadeText]
    by_cases hf1 : isIntFlag v = true
    · rw [if_pos hf1, getIntRaw_id v hf1]
    · rw [if_neg hf1]
      by_cases hf2 : isUintFlag v = true
      · rw [if_pos hf2, getUintRaw_id v hf2]
      · rw [if_neg hf2]
        by_cases hf3 : isInt64Flag v = true
        · rw [if_pos hf3, getInt64Raw_id v hf3]
        · rw [if_neg hf3]
          have hf4 : isUint64Flag v = true := by
            rw [isInt64Flag_iff] at hf3
            rw [isUint64Flag_iff]
            unfold int64min at h1
            unfold uint64max at h2
            omega
          rw [if_pos hf4, getUint64Raw_id v hf4]
  refine ⟨rfl, fun b => rfl, ?_, fun q => rfl, ?_⟩
  · intro v h1 h2
    simp only [to_string]
    exact hcasc v h1 h2
  · intro n hk
    rcases hk with ⟨s, rfl⟩ | ⟨l, rfl⟩ | ⟨ms, rfl⟩
    · constructor
      · intro hle
        simp only [to_string]
        rw [if_neg (by omega)]
      · intro hgt
        simp only [to_string]
        rw [if_pos hgt]
    · constructor
      · intro hle
        simp only [to_string]
        rw [if_neg (by omega)]
      · intro hgt
        simp only [to_string]
        rw [if_pos hgt]
    · constructor
      · intro hle
        simp only [to_string]
        rw [if_neg (by omega)]
      · intro hgt
        simp only [to_string]
        rw [if_pos hgt]

/-- C8 counterexample: a number node is never truncated. With
`max_len = 2` the rendering of the node holding 12345 is the full
`"12345"` (5 bytes, exceeding 2) with no ellipsis marker appended. -/
theorem C8_cex :
    to_string (fun _ => []) (fun _ => []) 2 (Node.intNum 12345) = "12345".data ∧
    ("12345".data).length > 2 ∧
    to_string (fun _ => []) (fun _ => []) 2 (Node.intNum 12345) ≠
      ("12345".data).take 2 ++ "...".data := by
  refine ⟨by decide, by decide, by decide⟩

theorem C8_witness :
    to_string (fun _ => ['z', 'z', 'z', 'z']) (fun _ => []) 2 (Node.str ['a']) =
      ['z', 'z', 'z', 'z'].take 2 ++ "...".data := by
  have h := ((C8_main (fun _ => ['z', 'z', 'z', 'z']) (fun _ => []) 2).2.2.2.2
    (Node.str ['a']) (Or.inl ⟨['a'], rfl⟩)).2 (by decide)
  exact h

end Json
